import Mathlib

/-!
# DetourModKit — verification of the pattern compiler, scanner, region cache
# and hook registry

A shallow embedding of the core of DetourModKit in Lean 4, together with
theorems settling the specification claims about it.

Strings are embedded as `List Char` (ASCII); machine addresses
(`uintptr_t`, `size_t`) as `Nat` with explicit reduction modulo `2 ^ 64`
where the C++ arithmetic can wrap; `std::byte` values as `Nat` below 256;
fallible parsing as `Option`.  Calls into external collaborators (the
Windows virtual-memory query, the SafetyHook engine) are passed in as
explicit oracle arguments, and the number of engine invocations an
operation performs is returned alongside its result so that "no engine
call happens" is expressible.
-/

namespace DetourModKit

/-! ## Character classification (C locale, ASCII)

`std::isspace`, `std::isxdigit` and the fixed whitespace set
`" \t\n\r\f\v"` of `DetourModKit::String::trim` coincide on ASCII with the
predicates below, phrased on `Char.toNat` codepoints. -/

/-- Whitespace as used by `trim` (string_utils.hpp) and by
`std::istringstream` extraction: space (32), tab (9), LF (10), VT (11),
FF (12), CR (13). -/
def isWs (c : Char) : Bool :=
  c.toNat = 32 || (9 ≤ c.toNat && c.toNat ≤ 13)

/-- `std::isxdigit` in the C locale: `0`-`9`, `a`-`f`, `A`-`F`. -/
def isHexDigit (c : Char) : Bool :=
  (48 ≤ c.toNat && c.toNat ≤ 57) ||
  (97 ≤ c.toNat && c.toNat ≤ 102) ||
  (65 ≤ c.toNat && c.toNat ≤ 70)

/-- Value of one hex digit, as computed by `std::stoul(·, nullptr, 16)`
digit by digit. Returns 0 on non-digits (never reached on validated
input). -/
def hexVal (c : Char) : Nat :=
  if 48 ≤ c.toNat ∧ c.toNat ≤ 57 then c.toNat - 48
  else if 97 ≤ c.toNat ∧ c.toNat ≤ 102 then c.toNat - 97 + 10
  else if 65 ≤ c.toNat ∧ c.toNat ≤ 70 then c.toNat - 65 + 10
  else 0

/-! ## `DetourModKit::String::trim` (string_utils.hpp) -/

/-- `trim`: remove leading and trailing characters from the fixed
whitespace set.  `find_first_not_of`/`find_last_not_of` with `substr`
amounts to dropping a whitespace prefix and a whitespace suffix. -/
def trim (s : List Char) : List Char :=
  ((s.dropWhile isWs).reverse.dropWhile isWs).reverse

/-! ## Token extraction (`std::istringstream >> token`)

`operator>>` on a string skips leading whitespace and then reads a maximal
run of non-whitespace characters; iterated in `while (iss >> token)` this
is exactly whitespace splitting with empty pieces discarded. -/

def tokenizeAux : Nat → List Char → List (List Char)
  | _, [] => []
  | 0, _ :: _ => []
  | fuel + 1, c :: rest =>
    if isWs c then tokenizeAux fuel rest
    else (c :: rest.takeWhile (fun x => !isWs x)) ::
      tokenizeAux fuel (rest.dropWhile (fun x => !isWs x))

/-- Whitespace splitting of a character list (iterated `iss >> token`).
The fuel argument of `tokenizeAux` only forces structural recursion; with
fuel `s.length` it never runs out. -/
def tokenize (s : List Char) : List (List Char) := tokenizeAux s.length s

theorem tokenizeAux_fuel (fuel : Nat) : ∀ (fuel' : Nat) (s : List Char),
    s.length ≤ fuel → s.length ≤ fuel' → tokenizeAux fuel s = tokenizeAux fuel' s := by
  induction fuel with
  | zero =>
    intro fuel' s h _
    have hs : s = [] := List.eq_nil_of_length_eq_zero (Nat.le_zero.mp h)
    subst hs
    cases fuel' <;> rfl
  | succ n ih =>
    intro fuel' s h h'
    cases s with
    | nil => cases fuel' <;> rfl
    | cons c rest =>
      cases fuel' with
      | zero => simp at h'
      | succ m =>
        have hr : rest.length ≤ n := by simpa using h
        have hr' : rest.length ≤ m := by simpa using h'
        have hd : (rest.dropWhile (fun x => !isWs x)).length ≤ rest.length :=
          (List.dropWhile_suffix _).sublist.length_le
        simp only [tokenizeAux]
        by_cases hw : isWs c
        · simp only [hw, if_true]
          exact ih m rest hr hr'
        · simp only [hw, Bool.false_eq_true, if_false]
          rw [ih m (rest.dropWhile (fun x => !isWs x)) (le_trans hd hr) (le_trans hd hr')]

theorem tokenize_nil : tokenize [] = [] := rfl

theorem tokenize_cons (c : Char) (rest : List Char) :
    tokenize (c :: rest) =
      if isWs c then tokenize rest
      else (c :: rest.takeWhile (fun x => !isWs x)) ::
        tokenize (rest.dropWhile (fun x => !isWs x)) := by
  have hd : (rest.dropWhile (fun x => !isWs x)).length ≤ rest.length :=
    (List.dropWhile_suffix _).sublist.length_le
  simp only [tokenize, List.length_cons, tokenizeAux]
  by_cases hw : isWs c
  · simp only [hw, if_true]
  · simp only [hw, Bool.false_eq_true, if_false]
    rw [tokenizeAux_fuel rest.length _ _ hd (Nat.le_refl _)]

/-! ## The AOB pattern compiler (aob_scanner.cpp) -/

/-- `ParsedPatternByte` (aob_scanner.cpp, anonymous namespace): one parsed
pattern element. -/
structure ParsedPatternByte where
  value : Nat
  is_wildcard : Bool
deriving DecidableEq, Repr

/-- The conventional wildcard byte written by `parseAOB` and recognised by
`FindPattern` (`WILDCARD_BYTE_VALUE` = `std::byte{0xCC}`). -/
def WILDCARD_BYTE_VALUE : Nat := 0xCC

/-- One iteration of the token loop of `parseAOBInternal`: `"??"` or `"?"`
becomes a wildcard element; a two-character token of hex digits becomes a
concrete element whose value `std::stoul` computes (the `> 0xFF` guard is
kept although two hex digits never exceed it); anything else is an error,
which the loop turns into an empty overall result. -/
def parseToken (t : List Char) : Option ParsedPatternByte :=
  if t = ['?', '?'] ∨ t = ['?'] then
    some ⟨0, true⟩
  else
    match t with
    | [c0, c1] =>
      if isHexDigit c0 && isHexDigit c1 then
        let v := 16 * hexVal c0 + hexVal c1
        if v > 0xFF then none else some ⟨v, false⟩
      else none
    | _ => none

/-- The token loop of `parseAOBInternal`: every token must parse, and any
failure aborts with no partial result. -/
def parseTokens : List (List Char) → Option (List ParsedPatternByte)
  | [] => some []
  | t :: ts =>
    match parseToken t with
    | none => none
    | some p =>
      match parseTokens ts with
      | none => none
      | some ps => some (p :: ps)

/-- `parseAOBInternal` (aob_scanner.cpp lines 45-114): trim the input,
split it into whitespace-separated tokens, and parse them all; an empty
trimmed input or any malformed token yields the empty vector. -/
def parseAOBInternal (s : List Char) : List ParsedPatternByte :=
  match parseTokens (tokenize (trim s)) with
  | none => []
  | some ps => ps

/-- `DetourModKit::AOB::parseAOB` (aob_scanner.cpp lines 117-144): run the
internal parser and flatten each element to a byte, writing
`WILDCARD_BYTE_VALUE` (0xCC) for wildcards. -/
def parseAOB (s : List Char) : List Nat :=
  (parseAOBInternal s).map
    (fun e => if e.is_wildcard then WILDCARD_BYTE_VALUE else e.value)

/-! ## The scanner (`DetourModKit::AOB::FindPattern`)

Memory is a function from addresses to byte values; the null pointer is
address 0.  `FindPattern` returns the absolute address of the first match
(`some`) or the null pointer (`none`). -/

/-- The per-position wildcard classification of `FindPattern`
(aob_scanner.cpp lines 173-186): a pattern byte is a wildcard exactly when
it equals `WILDCARD_BYTE_VALUE`. -/
def isWildcardByte (b : Nat) : Bool := b == WILDCARD_BYTE_VALUE

/-- The inner comparison loop of `FindPattern` at one candidate address:
every non-wildcard pattern byte must equal the memory byte at the
corresponding offset. -/
def matchesAt (mem : Nat → Nat) (pattern : List Nat) (addr : Nat) : Bool :=
  (List.range pattern.length).all fun j =>
    isWildcardByte (pattern.getD j 0) || (mem (addr + j) == pattern.getD j 0)

/-- The outer sliding loop of `FindPattern`: try `count` consecutive
candidate addresses starting at `addr`, returning the first match. -/
def scanFrom (mem : Nat → Nat) (pattern : List Nat) (addr : Nat) : Nat → Option Nat
  | 0 => none
  | count + 1 =>
    if matchesAt mem pattern addr then some addr
    else scanFrom mem pattern (addr + 1) count

/-- `DetourModKit::AOB::FindPattern` (aob_scanner.cpp lines 146-219):
reject an empty pattern, a null start address, or a region smaller than
the pattern, then scan candidates `start .. start + (region_size -
pattern_size)` left to right. -/
def FindPattern (start_address region_size : Nat) (pattern : List Nat)
    (mem : Nat → Nat) : Option Nat :=
  if pattern.length = 0 then none
  else if start_address = 0 then none
  else if region_size < pattern.length then none
  else scanFrom mem pattern start_address (region_size - pattern.length + 1)

/-! ## Token-level vocabulary used to state the compiler claims -/

/-- A token the parser accepts as a wildcard (`"??"` or `"?"`). -/
def tokenIsWildcard (t : List Char) : Bool :=
  t == ['?', '?'] || t == ['?']

/-- A token of exactly two hex digits. -/
def tokenIsHexPair (t : List Char) : Bool :=
  match t with
  | [c0, c1] => isHexDigit c0 && isHexDigit c1
  | _ => false

/-- A valid pattern token: wildcard marker or two hex digits. -/
def validToken (t : List Char) : Bool :=
  tokenIsWildcard t || tokenIsHexPair t

/-- The numeric value of a two-hex-digit token (0 on other shapes). -/
def tokenValue (t : List Char) : Nat :=
  match t with
  | [c0, c1] => 16 * hexVal c0 + hexVal c1
  | _ => 0

/-- The byte `parseAOB` emits for one valid token. -/
def compiledByte (t : List Char) : Nat :=
  if tokenIsWildcard t then WILDCARD_BYTE_VALUE else tokenValue t

/-- Join tokens with single spaces, as in the claims about pattern
strings built from token sequences. -/
def joinTokens : List (List Char) → List Char
  | [] => []
  | [t] => t
  | t :: u :: ts => t ++ ' ' :: joinTokens (u :: ts)

example : parseAOB ['4', '8', ' ', '8', 'B', ' ', '?', '?', ' ', '0', '5']
    = [0x48, 0x8B, 0xCC, 0x05] := by decide

example : parseAOB ['C', 'C'] = [0xCC] := by decide

example : parseAOB ['4', ' ', '8', 'B'] = [] := by decide

example : parseAOB ['Z', 'Z'] = [] := by decide

example : tokenize (trim [' ', '4', '8', ' ', ' ', '8', 'B', ' '])
    = [['4', '8'], ['8', 'B']] := by decide

/-! ## The region permission cache (memory_utils.cpp)

Addresses (`uintptr_t`) and sizes (`size_t`) are 64-bit machine words;
every addition the C++ performs on them is taken modulo `PTR_MOD`.
Timestamps are abstract instants of the steady clock, embedded as `Nat`
milliseconds (the clock is monotonic, so the current time is at least
every stored timestamp). The `VirtualQuery` system call is an oracle
argument: `none` models a failed query, `some mbi` a filled
`MEMORY_BASIC_INFORMATION`. -/

/-- Wrap-around bound of `uintptr_t` arithmetic (64-bit build). -/
def PTR_MOD : Nat := 2 ^ 64

def PAGE_NOACCESS : Nat := 0x01
def PAGE_READONLY : Nat := 0x02
def PAGE_READWRITE : Nat := 0x04
def PAGE_WRITECOPY : Nat := 0x08
def PAGE_EXECUTE_READ : Nat := 0x20
def PAGE_EXECUTE_READWRITE : Nat := 0x40
def PAGE_EXECUTE_WRITECOPY : Nat := 0x80
def PAGE_GUARD : Nat := 0x100
def MEM_COMMIT : Nat := 0x1000

/-- `READ_PERMISSION_FLAGS` (memory_utils.cpp lines 305-306 and 346-347). -/
def READ_PERMISSION_FLAGS : Nat :=
  PAGE_READONLY ||| PAGE_READWRITE ||| PAGE_WRITECOPY |||
  PAGE_EXECUTE_READ ||| PAGE_EXECUTE_READWRITE ||| PAGE_EXECUTE_WRITECOPY

/-- `WRITE_PERMISSION_FLAGS` (memory_utils.cpp lines 399-400 and 429-430). -/
def WRITE_PERMISSION_FLAGS : Nat :=
  PAGE_READWRITE ||| PAGE_WRITECOPY |||
  PAGE_EXECUTE_READWRITE ||| PAGE_EXECUTE_WRITECOPY

/-- The readability bitmask policy applied both on the cache-hit path and
the `VirtualQuery` path: some read-permitting flag set, and neither
`PAGE_NOACCESS` nor `PAGE_GUARD` set. -/
def protAllowsRead (prot : Nat) : Bool :=
  (prot &&& READ_PERMISSION_FLAGS != 0) &&
  !((prot &&& PAGE_NOACCESS != 0) || (prot &&& PAGE_GUARD != 0))

/-- The writability bitmask policy, analogous to `protAllowsRead`. -/
def protAllowsWrite (prot : Nat) : Bool :=
  (prot &&& WRITE_PERMISSION_FLAGS != 0) &&
  !((prot &&& PAGE_NOACCESS != 0) || (prot &&& PAGE_GUARD != 0))

/-- `CachedMemoryRegionInfo` (memory_utils.cpp, anonymous namespace). -/
structure CachedMemoryRegionInfo where
  baseAddress : Nat
  regionSize : Nat
  protection : Nat
  timestamp : Nat
  valid : Bool
deriving DecidableEq, Repr

/-- The default-constructed (invalid) cache entry. -/
def emptyCacheEntry : CachedMemoryRegionInfo :=
  ⟨0, 0, 0, 0, false⟩

/-- `MEMORY_BASIC_INFORMATION` as far as memory_utils.cpp reads it. -/
structure MEMORY_BASIC_INFORMATION where
  BaseAddress : Nat
  RegionSize : Nat
  State : Nat
  Protect : Nat
deriving DecidableEq, Repr

/-- The entry loop of `findCacheEntry`: skip invalid entries, invalidate
and skip expired ones, and stop at the first valid fresh entry whose
range contains the query; on a hit its timestamp is refreshed and its
protection flags are the answer.  Returns the updated cache and the
protection of the hit, if any. -/
def findCacheEntryLoop (expiry_ms now address endAddress : Nat) :
    List CachedMemoryRegionInfo → List CachedMemoryRegionInfo × Option Nat
  | [] => ([], none)
  | e :: rest =>
    if e.valid = false then
      let r := findCacheEntryLoop expiry_ms now address endAddress rest
      (e :: r.1, r.2)
    else if expiry_ms < now - e.timestamp then
      let r := findCacheEntryLoop expiry_ms now address endAddress rest
      ({ e with valid := false } :: r.1, r.2)
    else if address ≥ e.baseAddress ∧
        endAddress ≤ (e.baseAddress + e.regionSize) % PTR_MOD then
      ({ e with timestamp := now } :: rest, some e.protection)
    else
      let r := findCacheEntryLoop expiry_ms now address endAddress rest
      (e :: r.1, r.2)

/-- `findCacheEntry` (memory_utils.cpp lines 89-124): reject a wrapped
`address + size` up front, then run the scan loop. -/
def findCacheEntry (cache : List CachedMemoryRegionInfo)
    (expiry_ms now address size : Nat) :
    List CachedMemoryRegionInfo × Option Nat :=
  let endAddress := (address + size) % PTR_MOD
  if endAddress < address ∧ size ≠ 0 then (cache, none)
  else findCacheEntryLoop expiry_ms now address endAddress cache

/-- `std::find_if` over the cache vector: index of the first element
satisfying the predicate. -/
def findIfIdx (p : CachedMemoryRegionInfo → Bool) :
    List CachedMemoryRegionInfo → Option Nat
  | [] => none
  | e :: rest =>
    if p e then some 0 else (findIfIdx p rest).map (· + 1)

/-- `std::min_element` over the cache vector, comparing timestamps with
strict `<`: index of the first entry holding the minimal timestamp. -/
def minElementIdx : List CachedMemoryRegionInfo → Nat
  | [] => 0
  | [_] => 0
  | e :: u :: rest =>
    let j := minElementIdx (u :: rest)
    if ((u :: rest).getD j emptyCacheEntry).timestamp < e.timestamp
    then j + 1 else 0

/-- The entry `updateCacheWithNewRegion` writes into the chosen slot. -/
def newCacheEntry (mbi : MEMORY_BASIC_INFORMATION) (now : Nat) :
    CachedMemoryRegionInfo :=
  ⟨mbi.BaseAddress, mbi.RegionSize, mbi.Protect, now, true⟩

/-- `updateCacheWithNewRegion` (memory_utils.cpp lines 133-163): do
nothing on an empty (disabled) cache; otherwise overwrite the first
invalid slot, or — when every slot is valid — the slot
`std::min_element` picks, i.e. the one with the oldest timestamp. -/
def updateCacheWithNewRegion (cache : List CachedMemoryRegionInfo)
    (now : Nat) (mbi : MEMORY_BASIC_INFORMATION) :
    List CachedMemoryRegionInfo :=
  if cache.isEmpty then cache
  else
    let i := match findIfIdx (fun e => !e.valid) cache with
      | some i => i
      | none => minElementIdx cache
    cache.set i (newCacheEntry mbi now)

/-- `isMemoryReadable` (memory_utils.cpp lines 282-378), with the
`VirtualQuery` outcome passed as the oracle `vq`.  Returns the boolean
answer and the cache state after the call.  The `initMemoryCache` call at
the top only performs one-time initialisation and does not change an
already-initialised cache, so it has no counterpart on the state here. -/
def isMemoryReadable (cache : List CachedMemoryRegionInfo)
    (expiry_ms now : Nat) (vq : Option MEMORY_BASIC_INFORMATION)
    (address size : Nat) : Bool × List CachedMemoryRegionInfo :=
  if address = 0 ∨ size = 0 then (false, cache)
  else
    let looked := if cache.isEmpty then (cache, none)
      else findCacheEntry cache expiry_ms now address size
    match looked.2 with
    | some prot => (protAllowsRead prot, looked.1)
    | none =>
      match vq with
      | none => (false, looked.1)
      | some mbi =>
        if mbi.State ≠ MEM_COMMIT then (false, looked.1)
        else if ¬ protAllowsRead mbi.Protect then (false, looked.1)
        else
          let query_end_addr := (address + size) % PTR_MOD
          if query_end_addr < address ∧ size ≠ 0 then (false, looked.1)
          else
            let region_end_addr := (mbi.BaseAddress + mbi.RegionSize) % PTR_MOD
            if address ≥ mbi.BaseAddress ∧ query_end_addr ≤ region_end_addr then
              (true, updateCacheWithNewRegion looked.1 now mbi)
            else (false, looked.1)

/-- `isMemoryWritable` (memory_utils.cpp lines 380-451): identical control
flow to `isMemoryReadable` with the write bitmask policy. -/
def isMemoryWritable (cache : List CachedMemoryRegionInfo)
    (expiry_ms now : Nat) (vq : Option MEMORY_BASIC_INFORMATION)
    (address size : Nat) : Bool × List CachedMemoryRegionInfo :=
  if address = 0 ∨ size = 0 then (false, cache)
  else
    let looked := if cache.isEmpty then (cache, none)
      else findCacheEntry cache expiry_ms now address size
    match looked.2 with
    | some prot => (protAllowsWrite prot, looked.1)
    | none =>
      match vq with
      | none => (false, looked.1)
      | some mbi =>
        if mbi.State ≠ MEM_COMMIT then (false, looked.1)
        else if ¬ protAllowsWrite mbi.Protect then (false, looked.1)
        else
          let query_end_addr := (address + size) % PTR_MOD
          if query_end_addr < address ∧ size ≠ 0 then (false, looked.1)
          else
            let region_end_addr := (mbi.BaseAddress + mbi.RegionSize) % PTR_MOD
            if address ≥ mbi.BaseAddress ∧ query_end_addr ≤ region_end_addr then
              (true, updateCacheWithNewRegion looked.1 now mbi)
            else (false, looked.1)

/-! ## The hook registry (hook_manager.hpp / hook_manager.cpp)

The registry state is the `m_hooks` vector, a hook record flattening the
`Hook` base-class fields shared by `InlineHook` and `MidHook`; the owned
`std::unique_ptr` to the SafetyHook object is embedded as an opaque handle
(`none` for a null pointer).  The SafetyHook engine is an oracle: the
outcome of `safetyhook::InlineHook::create` / `MidHook::create` (failure,
or a handle together with what `enabled()` subsequently reports), and the
boolean result of a per-handle `enable()` / `disable()` call.  Operations
return the number of engine calls they made so that "without invoking the
engine" is a provable statement. -/

/-- `HookType` (hook_manager.hpp). -/
inductive HookType where
  | Inline
  | Mid
deriving DecidableEq, Repr

/-- `HookStatus` (hook_manager.hpp). -/
inductive HookStatus where
  | Active
  | Disabled
  | Failed
  | Removed
deriving DecidableEq, Repr

/-- `HookConfig` (hook_manager.hpp). -/
structure HookConfig where
  autoEnable : Bool := true
  flags : Nat := 0
deriving DecidableEq, Repr

/-- One managed hook: the `Hook` data members plus the owned engine
object, `none` modelling a null `m_safetyhook_impl`. -/
structure HookRecord where
  name : String
  type : HookType
  target_address : Nat
  status : HookStatus
  engineHandle : Option Nat
deriving DecidableEq, Repr

/-- The registry state: the `m_hooks` vector. -/
def Registry := List HookRecord

/-- `find_hook_iterator` as an index: `std::find_if` by name. -/
def find_hook_idx (reg : List HookRecord) (hook_id : String) : Option Nat :=
  match reg with
  | [] => none
  | r :: rest =>
    if r.name = hook_id then some 0
    else (find_hook_idx rest hook_id).map (· + 1)

/-- `hook_id_exists` (part_002 lines 111-115). -/
def hook_id_exists (reg : List HookRecord) (hook_id : String) : Bool :=
  (find_hook_idx reg hook_id).isSome

/-- Outcome of a SafetyHook creation call: an error, or a handle together
with the enabled state the engine reports right after creation. -/
inductive EngineCreateOutcome where
  | err
  | ok (handle : Nat) (enabled : Bool)
deriving DecidableEq, Repr

/-- Result of a registry create operation: the new registry, the returned
name (empty on failure), the number of engine creation calls performed,
and whether the auto-enable divergence warning was logged. -/
structure CreateResult where
  registry : List HookRecord
  ret : String
  engineCalls : Nat
  warnedAutoEnable : Bool
deriving DecidableEq, Repr

/-- `HookManager::create_inline_hook` (part_002 lines 117-211): validate
allocator, target, detour and output-trampoline slot, reject a duplicate
name, then call the engine; on success the stored status is `Active`
exactly when the engine reports the new hook enabled, and a warning is
logged when auto-enable was requested but the hook is disabled. -/
def create_inline_hook (reg : List HookRecord) (allocatorOk : Bool)
    (name : String) (target_address : Nat) (detour_function : Nat)
    (original_trampoline : Bool) (config : HookConfig)
    (engine : EngineCreateOutcome) : CreateResult :=
  if !allocatorOk then ⟨reg, "", 0, false⟩
  else if target_address = 0 then ⟨reg, "", 0, false⟩
  else if detour_function = 0 then ⟨reg, "", 0, false⟩
  else if !original_trampoline then ⟨reg, "", 0, false⟩
  else if hook_id_exists reg name then ⟨reg, "", 0, false⟩
  else
    match engine with
    | .err => ⟨reg, "", 1, false⟩
    | .ok handle enabled =>
      let initial_status := if enabled then HookStatus.Active
        else HookStatus.Disabled
      ⟨reg ++ [⟨name, HookType.Inline, target_address, initial_status,
          some handle⟩],
        name, 1, config.autoEnable && !enabled⟩

/-- `HookManager::create_mid_hook` (part_002 lines 250-336): as
`create_inline_hook` without the output-trampoline slot. -/
def create_mid_hook (reg : List HookRecord) (allocatorOk : Bool)
    (name : String) (target_address : Nat) (detour_function : Nat)
    (config : HookConfig) (engine : EngineCreateOutcome) : CreateResult :=
  if !allocatorOk then ⟨reg, "", 0, false⟩
  else if target_address = 0 then ⟨reg, "", 0, false⟩
  else if detour_function = 0 then ⟨reg, "", 0, false⟩
  else if hook_id_exists reg name then ⟨reg, "", 0, false⟩
  else
    match engine with
    | .err => ⟨reg, "", 1, false⟩
    | .ok handle enabled =>
      let initial_status := if enabled then HookStatus.Active
        else HookStatus.Disabled
      ⟨reg ++ [⟨name, HookType.Mid, target_address, initial_status,
          some handle⟩],
        name, 1, config.autoEnable && !enabled⟩

/-- `InlineHook::enable` / `MidHook::enable` (part_006 lines 127-143 and
191-207, identical bodies): null engine object fails; already `Active`
succeeds; only from `Disabled` is the engine called, moving to `Active`
on success.  Returns (result, updated record, engine calls made). -/
def hookEnable (h : HookRecord) (engineOk : Bool) :
    Bool × HookRecord × Nat :=
  match h.engineHandle with
  | none => (false, h, 0)
  | some _ =>
    if h.status = HookStatus.Active then (true, h, 0)
    else if h.status ≠ HookStatus.Disabled then (false, h, 0)
    else if engineOk then (true, { h with status := HookStatus.Active }, 1)
    else (false, h, 1)

/-- `InlineHook::disable` / `MidHook::disable` (part_006 lines 145-161 and
209-225, identical bodies): mirror image of `hookEnable`. -/
def hookDisable (h : HookRecord) (engineOk : Bool) :
    Bool × HookRecord × Nat :=
  match h.engineHandle with
  | none => (false, h, 0)
  | some _ =>
    if h.status = HookStatus.Disabled then (true, h, 0)
    else if h.status ≠ HookStatus.Active then (false, h, 0)
    else if engineOk then (true, { h with status := HookStatus.Disabled }, 1)
    else (false, h, 1)

/-- Result of a registry enable/disable operation: the boolean return,
the new registry, and the number of engine calls performed. -/
structure OpResult where
  ret : Bool
  registry : List HookRecord
  engineCalls : Nat
deriving DecidableEq, Repr

/-- `HookManager::enable_hook` (part_002 lines 404-437): unknown name
fails; a `Disabled` hook is enabled through the engine; an `Active` hook
is a no-op success; other statuses fail. -/
def enable_hook (reg : List HookRecord) (hook_id : String)
    (engineOk : Bool) : OpResult :=
  match find_hook_idx reg hook_id with
  | none => ⟨false, reg, 0⟩
  | some i =>
    let h := reg.getD i ⟨"", HookType.Inline, 0, HookStatus.Removed, none⟩
    if h.status = HookStatus.Disabled then
      let r := hookEnable h engineOk
      ⟨r.1, reg.set i r.2.1, r.2.2⟩
    else if h.status = HookStatus.Active then ⟨true, reg, 0⟩
    else ⟨false, reg, 0⟩

/-- `HookManager::disable_hook` (part_002 lines 439-472): mirror image of
`enable_hook`. -/
def disable_hook (reg : List HookRecord) (hook_id : String)
    (engineOk : Bool) : OpResult :=
  match find_hook_idx reg hook_id with
  | none => ⟨false, reg, 0⟩
  | some i =>
    let h := reg.getD i ⟨"", HookType.Inline, 0, HookStatus.Removed, none⟩
    if h.status = HookStatus.Active then
      let r := hookDisable h engineOk
      ⟨r.1, reg.set i r.2.1, r.2.2⟩
    else if h.status = HookStatus.Disabled then ⟨true, reg, 0⟩
    else ⟨false, reg, 0⟩

/-! ## General list helpers -/

theorem set_getD_self {α : Type} (l : List α) (i : Nat) (d : α)
    (hi : i < l.length) : l.set i (l.getD i d) = l := by
  apply List.ext_getElem
  · simp
  · intro j hj hj'
    by_cases hij : i = j
    · subst hij
      rw [List.getElem_set_self _]
      exact List.getD_eq_getElem _ _ hi
    · exact List.getElem_set_of_ne hij _ _

/-! ## Character-level facts -/

theorem isHexDigit_not_ws (c : Char) (h : isHexDigit c = true) :
    isWs c = false := by
  simp only [isHexDigit, Bool.or_eq_true, Bool.and_eq_true,
    decide_eq_true_eq] at h
  simp only [isWs, Bool.or_eq_true, Bool.and_eq_true, decide_eq_true_eq,
    Bool.or_eq_false_iff, Bool.and_eq_false_iff, decide_eq_false_iff_not]
  omega

theorem hexVal_le_15 (c : Char) (_h : isHexDigit c = true) :
    hexVal c ≤ 15 := by
  unfold hexVal
  split
  · omega
  · split
    · omega
    · split
      · omega
      · omega

/-! ## Token-level facts -/

/-- The parsed element a valid token produces. -/
def parsedOf (t : List Char) : ParsedPatternByte :=
  if tokenIsWildcard t then ⟨0, true⟩ else ⟨tokenValue t, false⟩

theorem parseToken_valid (t : List Char) (h : validToken t = true) :
    parseToken t = some (parsedOf t) := by
  unfold validToken at h
  unfold parseToken parsedOf
  by_cases hw : tokenIsWildcard t = true
  · have : t = ['?', '?'] ∨ t = ['?'] := by
      simpa [tokenIsWildcard] using hw
    simp [this, hw]
  · simp only [hw, Bool.false_or] at h
    simp only [hw, if_false, Bool.false_eq_true]
    have hne : ¬ (t = ['?', '?'] ∨ t = ['?']) := by
      simpa [tokenIsWildcard] using hw
    rw [if_neg hne]
    match t, h with
    | [c0, c1], h =>
      simp only [tokenIsHexPair] at h
      have h0 : isHexDigit c0 = true := by
        simp only [Bool.and_eq_true] at h
        exact h.1
      have h1 : isHexDigit c1 = true := by
        simp only [Bool.and_eq_true] at h
        exact h.2
      have hv : 16 * hexVal c0 + hexVal c1 ≤ 255 := by
        have := hexVal_le_15 c0 h0
        have := hexVal_le_15 c1 h1
        omega
      simp [h, tokenValue]
      omega

theorem validToken_ne_nil (t : List Char) (h : validToken t = true) :
    t ≠ [] := by
  intro hnil
  subst hnil
  simp [validToken, tokenIsWildcard, tokenIsHexPair] at h

theorem validToken_not_ws (t : List Char) (h : validToken t = true) :
    ∀ c ∈ t, isWs c = false := by
  simp only [validToken, Bool.or_eq_true] at h
  rcases h with h | h
  · have : t = ['?', '?'] ∨ t = ['?'] := by
      simpa [tokenIsWildcard] using h
    rcases this with rfl | rfl <;> decide
  · match t, h with
    | [c0, c1], h =>
      simp only [tokenIsHexPair, Bool.and_eq_true] at h
      intro c hc
      simp only [List.mem_cons, List.not_mem_nil, or_false] at hc
      rcases hc with rfl | rfl
      · exact isHexDigit_not_ws _ h.1
      · exact isHexDigit_not_ws _ h.2

/-! ## Tokenisation of joined token lists -/

theorem takeWhile_append_nonWs (t l : List Char)
    (h : ∀ c ∈ t, isWs c = false) :
    (t ++ l).takeWhile (fun x => !isWs x) =
      t ++ l.takeWhile (fun x => !isWs x) := by
  induction t with
  | nil => rfl
  | cons c t' ih =>
    have hc : isWs c = false := h c (List.mem_cons_self c t')
    simp only [List.cons_append, List.takeWhile_cons, hc, Bool.not_false,
      if_true]
    rw [ih (fun x hx => h x (List.mem_cons_of_mem c hx))]

theorem dropWhile_append_nonWs (t l : List Char)
    (h : ∀ c ∈ t, isWs c = false) :
    (t ++ l).dropWhile (fun x => !isWs x) =
      l.dropWhile (fun x => !isWs x) := by
  induction t with
  | nil => rfl
  | cons c t' ih =>
    have hc : isWs c = false := h c (List.mem_cons_self c t')
    simp only [List.cons_append, List.dropWhile_cons, hc, Bool.not_false,
      if_true]
    exact ih (fun x hx => h x (List.mem_cons_of_mem c hx))

theorem joinTokens_ne_nil (ts : List (List Char)) (hne : ts ≠ [])
    (h : ∀ t ∈ ts, t ≠ []) : joinTokens ts ≠ [] := by
  match ts with
  | [] => exact absurd rfl hne
  | [t] =>
    simpa [joinTokens] using h t (List.mem_cons_self t [])
  | t :: u :: ts =>
    have ht : t ≠ [] := h t (List.mem_cons_self t _)
    simp only [joinTokens]
    intro hcontra
    rcases List.append_eq_nil.mp hcontra with ⟨h1, _⟩
    exact ht h1

/-- One token followed by nothing or by a space-led remainder is split
off whole by `tokenize`. -/
theorem tokenize_first_token (t l : List Char) (ht : t ≠ [])
    (hws : ∀ c ∈ t, isWs c = false)
    (hl : l = [] ∨ ∃ l', l = ' ' :: l') :
    tokenize (t ++ l) = t :: tokenize l := by
  match t with
  | c :: t' =>
    have hc : isWs c = false := hws c (List.mem_cons_self c t')
    have hws' : ∀ x ∈ t', isWs x = false :=
      fun x hx => hws x (List.mem_cons_of_mem c hx)
    simp only [List.cons_append, tokenize_cons, hc, Bool.false_eq_true,
      if_false]
    rw [takeWhile_append_nonWs t' l hws', dropWhile_append_nonWs t' l hws']
    rcases hl with rfl | ⟨l', rfl⟩
    · simp [List.takeWhile_nil, List.dropWhile_nil]
    · have htake : (' ' :: l').takeWhile (fun x => !isWs x) = [] := by
        rw [List.takeWhile_cons]
        simp [show isWs ' ' = true from by decide]
      have hdrop : (' ' :: l').dropWhile (fun x => !isWs x) = ' ' :: l' := by
        rw [List.dropWhile_cons]
        simp [show isWs ' ' = true from by decide]
      rw [htake, hdrop]
      simp only [List.append_nil]

theorem tokenize_join (ts : List (List Char))
    (h : ∀ t ∈ ts, validToken t = true) :
    tokenize (joinTokens ts) = ts := by
  induction ts with
  | nil => rfl
  | cons t ts ih =>
    have ht : validToken t = true := h t (List.mem_cons_self t ts)
    have hts : ∀ u ∈ ts, validToken u = true :=
      fun u hu => h u (List.mem_cons_of_mem t hu)
    match ts with
    | [] =>
      simp only [joinTokens]
      rw [show (t : List Char) = t ++ [] from (List.append_nil t).symm,
        tokenize_first_token t [] (validToken_ne_nil t ht)
          (validToken_not_ws t ht) (Or.inl rfl)]
      simp [tokenize_nil]
    | u :: ts' =>
      simp only [joinTokens]
      rw [tokenize_first_token t (' ' :: joinTokens (u :: ts'))
        (validToken_ne_nil t ht) (validToken_not_ws t ht)
        (Or.inr ⟨joinTokens (u :: ts'), rfl⟩)]
      have : tokenize (' ' :: joinTokens (u :: ts')) =
          tokenize (joinTokens (u :: ts')) := by
        rw [tokenize_cons]
        simp [show isWs ' ' = true from by decide]
      rw [this, ih hts]

/-! ## Trimming a joined token list is the identity -/

theorem dropWhile_ws_eq_self (l : List Char)
    (h : ∀ c, l.head? = some c → isWs c = false) :
    l.dropWhile isWs = l := by
  cases l with
  | nil => rfl
  | cons c l' =>
    have hc : isWs c = false := h c rfl
    simp [List.dropWhile_cons, hc]

theorem joinTokens_head?_not_ws (ts : List (List Char))
    (h : ∀ t ∈ ts, validToken t = true) :
    ∀ c, (joinTokens ts).head? = some c → isWs c = false := by
  match ts with
  | [] => intro c hc; simp [joinTokens] at hc
  | t :: ts' =>
    have ht : validToken t = true := h t (List.mem_cons_self t ts')
    intro c hc
    have hmem : c ∈ t := by
      match ts', t with
      | [], [] => exact absurd ht (by decide)
      | [], d :: t'' =>
        simp only [joinTokens, List.head?_cons, Option.some.injEq] at hc
        subst hc
        exact List.mem_cons_self _ _
      | u :: ts'', [] => exact absurd ht (by decide)
      | u :: ts'', d :: t'' =>
        simp only [joinTokens, List.cons_append, List.head?_cons,
          Option.some.injEq] at hc
        subst hc
        exact List.mem_cons_self _ _
    exact validToken_not_ws t ht c hmem

theorem joinTokens_getLast?_not_ws (ts : List (List Char))
    (h : ∀ t ∈ ts, validToken t = true) :
    ∀ c, (joinTokens ts).getLast? = some c → isWs c = false := by
  induction ts with
  | nil => intro c hc; simp [joinTokens] at hc
  | cons t ts' ih =>
    have ht : validToken t = true := h t (List.mem_cons_self t ts')
    have hts : ∀ u ∈ ts', validToken u = true :=
      fun u hu => h u (List.mem_cons_of_mem t hu)
    match ts' with
    | [] =>
      intro c hc
      have : c ∈ t := List.mem_of_mem_getLast? hc
      exact validToken_not_ws t ht c this
    | u :: ts'' =>
      intro c hc
      simp only [joinTokens] at hc
      rw [List.getLast?_append_cons] at hc
      have hjoin_ne : joinTokens (u :: ts'') ≠ [] :=
        joinTokens_ne_nil (u :: ts'') (by simp)
          (fun v hv => validToken_ne_nil v (hts v hv))
      rw [show (' ' :: joinTokens (u :: ts'')) =
          [' '] ++ joinTokens (u :: ts'') from rfl,
        List.getLast?_append_of_ne_nil [' '] hjoin_ne] at hc
      exact ih hts c hc

theorem trim_join (ts : List (List Char))
    (h : ∀ t ∈ ts, validToken t = true) :
    trim (joinTokens ts) = joinTokens ts := by
  unfold trim
  rw [dropWhile_ws_eq_self _ (joinTokens_head?_not_ws ts h)]
  rw [dropWhile_ws_eq_self _ (fun c hc => by
    rw [List.head?_reverse] at hc
    exact joinTokens_getLast?_not_ws ts h c hc)]
  exact List.reverse_reverse _

/-! ## Parsing a fully valid token list -/

theorem parseTokens_all_valid (ts : List (List Char))
    (h : ∀ t ∈ ts, validToken t = true) :
    parseTokens ts = some (ts.map parsedOf) := by
  induction ts with
  | nil => rfl
  | cons t ts ih =>
    have ht := h t (List.mem_cons_self t ts)
    have hts : ∀ u ∈ ts, validToken u = true :=
      fun u hu => h u (List.mem_cons_of_mem t hu)
    simp only [parseTokens, parseToken_valid t ht, ih hts, List.map_cons]

theorem parseAOBInternal_join (ts : List (List Char))
    (h : ∀ t ∈ ts, validToken t = true) :
    parseAOBInternal (joinTokens ts) = ts.map parsedOf := by
  unfold parseAOBInternal
  rw [trim_join ts h, tokenize_join ts h, parseTokens_all_valid ts h]

theorem parseAOB_join (ts : List (List Char))
    (h : ∀ t ∈ ts, validToken t = true) :
    parseAOB (joinTokens ts) = ts.map compiledByte := by
  unfold parseAOB
  rw [parseAOBInternal_join ts h, List.map_map]
  apply List.map_congr_left
  intro t _
  simp only [Function.comp_apply, parsedOf, compiledByte]
  by_cases hw : tokenIsWildcard t = true
  · simp [hw]
  · simp [hw]

/-! ## Parsing with a malformed token -/

theorem parseTokens_none_of_bad (ts : List (List Char)) (t : List Char)
    (hmem : t ∈ ts) (hbad : parseToken t = none) :
    parseTokens ts = none := by
  induction ts with
  | nil => simp at hmem
  | cons u ts ih =>
    rcases List.mem_cons.mp hmem with rfl | hmem'
    · simp [parseTokens, hbad]
    · simp only [parseTokens]
      cases hu : parseToken u with
      | none => rfl
      | some p => rw [ih hmem']

theorem parseAOB_empty_of_bad (s : List Char)
    (hbad : ∃ t ∈ tokenize (trim s), parseToken t = none) :
    parseAOB s = [] := by
  obtain ⟨t, hmem, hnone⟩ := hbad
  unfold parseAOB parseAOBInternal
  rw [parseTokens_none_of_bad _ t hmem hnone]
  rfl

/-! ## Scanner lemmas -/

theorem bool_eq_of_iff {b c : Bool} (h : b = true ↔ c = true) : b = c := by
  cases b <;> cases c <;> simp_all

theorem scanFrom_eq_some_iff (mem : Nat → Nat) (p : List Nat) :
    ∀ (k addr a : Nat), scanFrom mem p addr k = some a ↔
      ∃ i, i < k ∧ a = addr + i ∧ matchesAt mem p (addr + i) = true ∧
        ∀ j, j < i → matchesAt mem p (addr + j) = false := by
  intro k
  induction k with
  | zero =>
    intro addr a
    simp [scanFrom]
  | succ n ih =>
    intro addr a
    simp only [scanFrom]
    by_cases hm : matchesAt mem p addr = true
    · rw [if_pos hm]
      constructor
      · intro h
        have ha : a = addr := by simpa using h.symm
        exact ⟨0, Nat.succ_pos n, by omega,
          by simpa using hm, by omega⟩
      · rintro ⟨i, _, rfl, _, hj⟩
        cases i with
        | zero => simp
        | succ i' =>
          have := hj 0 (Nat.succ_pos i')
          rw [Nat.add_zero] at this
          exact absurd hm (by simp [this])
    · rw [if_neg hm]
      rw [ih (addr + 1) a]
      have hmf : matchesAt mem p addr = false := by
        simpa using hm
      constructor
      · rintro ⟨i, hin, rfl, hmi, hj⟩
        refine ⟨i + 1, by omega, by omega, ?_, ?_⟩
        · have e : addr + (i + 1) = addr + 1 + i := by omega
          rw [e]
          exact hmi
        · intro j hj1
          cases j with
          | zero =>
            rw [Nat.add_zero]
            exact hmf
          | succ j' =>
            have e : addr + (j' + 1) = addr + 1 + j' := by omega
            rw [e]
            exact hj j' (by omega)
      · rintro ⟨i, hin, rfl, hmi, hj⟩
        cases i with
        | zero =>
          rw [Nat.add_zero] at hmi
          exact absurd hmi (by simp [hmf])
        | succ i' =>
          refine ⟨i', by omega, by omega, ?_, ?_⟩
          · have e : addr + 1 + i' = addr + (i' + 1) := by omega
            rw [e]
            exact hmi
          · intro j hj1
            have e : addr + 1 + j = addr + (j + 1) := by omega
            rw [e]
            exact hj (j + 1) (by omega)

theorem scanFrom_eq_none_iff (mem : Nat → Nat) (p : List Nat) :
    ∀ (k addr : Nat), scanFrom mem p addr k = none ↔
      ∀ i, i < k → matchesAt mem p (addr + i) = false := by
  intro k
  induction k with
  | zero =>
    intro addr
    simp [scanFrom]
  | succ n ih =>
    intro addr
    simp only [scanFrom]
    by_cases hm : matchesAt mem p addr = true
    · rw [if_pos hm]
      simp only [reduceCtorEq, false_iff, not_forall]
      exact ⟨0, Nat.succ_pos n, by simpa using hm⟩
    · rw [if_neg hm]
      rw [ih (addr + 1)]
      have hmf : matchesAt mem p addr = false := by simpa using hm
      constructor
      · intro h i hi
        cases i with
        | zero =>
          rw [Nat.add_zero]
          exact hmf
        | succ i' =>
          have e : addr + (i' + 1) = addr + 1 + i' := by omega
          rw [e]
          exact h i' (by omega)
      · intro h i hi
        have e : addr + 1 + i = addr + (i + 1) := by omega
        rw [e]
        exact h (i + 1) (by omega)

theorem matchesAt_congr (mem mem' : Nat → Nat) (p : List Nat) (addr : Nat)
    (h : ∀ j, j < p.length → mem (addr + j) = mem' (addr + j)) :
    matchesAt mem p addr = matchesAt mem' p addr := by
  apply bool_eq_of_iff
  simp only [matchesAt, List.all_eq_true, List.mem_range]
  constructor
  · intro hall j hj
    have := hall j hj
    rwa [h j hj] at this
  · intro hall j hj
    have := hall j hj
    rwa [← h j hj] at this

theorem scanFrom_congr (mem mem' : Nat → Nat) (p : List Nat) :
    ∀ (k addr : Nat),
    (∀ i, i < k → ∀ j, j < p.length →
      mem (addr + i + j) = mem' (addr + i + j)) →
    scanFrom mem p addr k = scanFrom mem' p addr k := by
  intro k
  induction k with
  | zero =>
    intro addr _
    rfl
  | succ n ih =>
    intro addr h
    simp only [scanFrom]
    rw [matchesAt_congr mem mem' p addr (fun j hj => by
      have := h 0 (Nat.succ_pos n) j hj
      rwa [Nat.add_zero] at this)]
    rw [ih (addr + 1) (fun i hi j hj => by
      have e : addr + 1 + i = addr + (i + 1) := by omega
      rw [e]
      exact h (i + 1) (by omega) j hj)]

/-! ## Cache slot-selection lemmas -/

theorem findIfIdx_some (p : CachedMemoryRegionInfo → Bool) :
    ∀ (l : List CachedMemoryRegionInfo) (i : Nat),
    findIfIdx p l = some i →
    i < l.length ∧ p (l.getD i emptyCacheEntry) = true ∧
      ∀ j, j < i → p (l.getD j emptyCacheEntry) = false := by
  intro l
  induction l with
  | nil =>
    intro i h
    simp [findIfIdx] at h
  | cons e rest ih =>
    intro i h
    simp only [findIfIdx] at h
    by_cases hp : p e = true
    · rw [if_pos hp] at h
      have hi : i = 0 := by simpa using h.symm
      subst hi
      exact ⟨by simp, by simpa using hp, by omega⟩
    · rw [if_neg hp] at h
      cases hrec : findIfIdx p rest with
      | none =>
        rw [hrec] at h
        simp at h
      | some i' =>
        rw [hrec] at h
        simp only [Option.map_some', Option.some.injEq] at h
        obtain ⟨h1, h2, h3⟩ := ih i' hrec
        subst h
        refine ⟨by simp; omega, by simpa using h2, ?_⟩
        intro j hj
        cases j with
        | zero =>
          simpa using (by simpa using hp : p e = false)
        | succ j' =>
          simpa using h3 j' (by omega)

theorem findIfIdx_isSome_of_mem (p : CachedMemoryRegionInfo → Bool) :
    ∀ (l : List CachedMemoryRegionInfo) (e : CachedMemoryRegionInfo),
    e ∈ l → p e = true → (findIfIdx p l).isSome = true := by
  intro l
  induction l with
  | nil =>
    intro e h
    simp at h
  | cons u rest ih =>
    intro e hmem hp
    simp only [findIfIdx]
    rcases List.mem_cons.mp hmem with rfl | hmem'
    · simp [hp]
    · by_cases hu : p u = true
      · simp [hu]
      · rw [if_neg hu]
        have := ih e hmem' hp
        cases hrec : findIfIdx p rest with
        | none => rw [hrec] at this; simp at this
        | some i => simp

theorem minElementIdx_lt (l : List CachedMemoryRegionInfo) (h : l ≠ []) :
    minElementIdx l < l.length := by
  induction l with
  | nil => exact absurd rfl h
  | cons e rest ih =>
    cases rest with
    | nil => simp [minElementIdx]
    | cons u rest' =>
      simp only [minElementIdx]
      split
      · have := ih (by simp)
        simp only [List.length_cons] at this ⊢
        omega
      · simp

theorem minElementIdx_min (l : List CachedMemoryRegionInfo) :
    ∀ j, j < l.length →
    (l.getD (minElementIdx l) emptyCacheEntry).timestamp ≤
      (l.getD j emptyCacheEntry).timestamp := by
  induction l with
  | nil =>
    intro j hj
    simp at hj
  | cons e rest ih =>
    intro j hj
    cases rest with
    | nil =>
      cases j with
      | zero => simp [minElementIdx]
      | succ j' => simp at hj
    | cons u rest' =>
      simp only [minElementIdx]
      split
      · rename_i hlt
        rw [List.getD_cons_succ]
        cases j with
        | zero =>
          rw [List.getD_cons_zero]
          exact le_of_lt hlt
        | succ j' =>
          rw [List.getD_cons_succ]
          exact ih j' (by simpa using hj)
      · rename_i hnlt
        rw [List.getD_cons_zero]
        cases j with
        | zero =>
          rw [List.getD_cons_zero]
        | succ j' =>
          rw [List.getD_cons_succ]
          have h1 : e.timestamp ≤
              ((u :: rest').getD (minElementIdx (u :: rest'))
                emptyCacheEntry).timestamp := by omega
          exact le_trans h1 (ih j' (by simpa using hj))

theorem parseToken_invalid (t : List Char) (h : validToken t = false) :
    parseToken t = none := by
  simp only [validToken, Bool.or_eq_false_iff] at h
  obtain ⟨hw, hh⟩ := h
  have hne : ¬ (t = ['?', '?'] ∨ t = ['?']) := by
    simpa [tokenIsWildcard] using hw
  unfold parseToken
  rw [if_neg hne]
  match t with
  | [] => rfl
  | [_] => rfl
  | [c0, c1] =>
    simp only [tokenIsHexPair] at hh
    simp [hh]
  | _ :: _ :: _ :: _ => rfl

/-! ## Claim theorems -/

/-- C1 (counterexample): the round-trip classification claim fails at the
pattern string "CC" — a single valid concrete token, whose compiled byte
0xCC is classified as a wildcard by `FindPattern` although the token was
neither `?` nor `??`. -/
theorem c1_round_trip_counterexample :
    validToken ['C', 'C'] = true ∧
    joinTokens [['C', 'C']] = ['C', 'C'] ∧
    ¬ (isWildcardByte ((parseAOB ['C', 'C']).getD 0 0) = true ↔
        tokenIsWildcard ['C', 'C'] = true) := by decide

/-- C1 (amended): for every pattern string that is a sequence of valid
tokens joined by single spaces, compiling with `parseAOB` and classifying
each output position the way `FindPattern` does yields the original
token-by-token classification, except that a concrete token whose hex
value is 0xCC (the token "CC" in any letter case) is also classified as a
wildcard: position `i` is classified as a wildcard if and only if token
`i` was `?` or `??`, or was a concrete token of value 0xCC. -/
theorem c1_round_trip_amended (ts : List (List Char))
    (h : ∀ t ∈ ts, validToken t = true) :
    (parseAOB (joinTokens ts)).length = ts.length ∧
    ∀ i, i < ts.length →
      (isWildcardByte ((parseAOB (joinTokens ts)).getD i 0) = true ↔
        (tokenIsWildcard (ts.getD i []) = true ∨
          (tokenIsWildcard (ts.getD i []) = false ∧
            tokenValue (ts.getD i []) = WILDCARD_BYTE_VALUE))) := by
  rw [parseAOB_join ts h]
  refine ⟨by simp, ?_⟩
  intro i hi
  have hmap : (ts.map compiledByte).getD i 0 = compiledByte (ts.getD i []) := by
    rw [List.getD_eq_getElem _ _ (by simpa using hi),
      List.getD_eq_getElem _ _ hi]
    simp
  rw [hmap]
  unfold compiledByte isWildcardByte
  by_cases hw : tokenIsWildcard (ts.getD i []) = true
  · rw [if_pos hw]
    simp only [beq_self_eq_true]
    exact iff_of_true trivial (Or.inl hw)
  · rw [if_neg hw]
    rw [beq_iff_eq]
    constructor
    · intro hv
      exact Or.inr ⟨by simpa using hw, hv⟩
    · rintro (hcontra | ⟨_, hv⟩)
      · exact absurd hcontra hw
      · exact hv

/-- C1 (witness): the amended round trip evaluated on the token sequence
`48 ?? CC`: position 0 is concrete, position 1 a wildcard, and position 2
— the CC token — classified as a wildcard. -/
theorem c1_round_trip_amended_witness :
    (isWildcardByte ((parseAOB (joinTokens
        [['4', '8'], ['?', '?'], ['C', 'C']])).getD 2 0) = true ↔
      (tokenIsWildcard (([['4', '8'], ['?', '?'], ['C', 'C']] :
          List (List Char)).getD 2 []) = true ∨
        (tokenIsWildcard (([['4', '8'], ['?', '?'], ['C', 'C']] :
            List (List Char)).getD 2 []) = false ∧
          tokenValue (([['4', '8'], ['?', '?'], ['C', 'C']] :
            List (List Char)).getD 2 []) = WILDCARD_BYTE_VALUE))) :=
  (c1_round_trip_amended [['4', '8'], ['?', '?'], ['C', 'C']]
    (by decide)).2 2 (by decide)

/-- C2: `parseAOB` compiles the concrete token "CC" and the wildcard
token to the same byte 0xCC, so `FindPattern` cannot distinguish them:
scanning with a pattern whose token `i` is "CC" behaves exactly as if
that token were `??`, and in particular the one-token pattern "CC"
matches a region whose byte is 0xAB ≠ 0xCC. -/
theorem c2_cc_token_is_wildcard (ts : List (List Char)) (i : Nat)
    (h : ∀ t ∈ ts, validToken t = true) (hi : i < ts.length)
    (hcc : ts.getD i [] = ['C', 'C']) :
    (∀ start_address region_size mem,
      FindPattern start_address region_size (parseAOB (joinTokens ts)) mem =
        FindPattern start_address region_size
          (parseAOB (joinTokens (ts.set i ['?', '?']))) mem) ∧
    FindPattern 1000 1 (parseAOB ['C', 'C']) (fun _ => 0xAB) = some 1000 ∧
    (0xAB : Nat) ≠ WILDCARD_BYTE_VALUE := by
  refine ⟨?_, by decide, by decide⟩
  have hset : ∀ t ∈ ts.set i ['?', '?'], validToken t = true := by
    intro t ht
    rcases List.mem_or_eq_of_mem_set ht with hmem | rfl
    · exact h t hmem
    · decide
  have heq : parseAOB (joinTokens ts) =
      parseAOB (joinTokens (ts.set i ['?', '?'])) := by
    rw [parseAOB_join ts h, parseAOB_join _ hset, List.map_set]
    have hcb : compiledByte ['?', '?'] = WILDCARD_BYTE_VALUE := by decide
    have hgd : (ts.map compiledByte).getD i 0 = WILDCARD_BYTE_VALUE := by
      rw [List.getD_eq_getElem _ _ (by simpa using hi)]
      simp only [List.getElem_map]
      rw [← List.getD_eq_getElem ts [] hi, hcc]
      decide
    rw [hcb, ← hgd, set_getD_self _ _ _ (by simpa using hi)]
  intro start_address region_size mem
  rw [heq]

/-- C2 (witness): the equivalence applied to the concrete token sequence
`48 CC` with the CC token at position 1. -/
theorem c2_cc_token_is_wildcard_witness :
    FindPattern 1000 1 (parseAOB ['C', 'C']) (fun _ => 0xAB) = some 1000 :=
  (c2_cc_token_is_wildcard [['4', '8'], ['C', 'C']] 1 (by decide) (by decide)
    (by decide)).2.1

/-- C9: any input whose whitespace-split token list contains a malformed
token compiles to the empty pattern — no prefix of parsed tokens
survives; in particular "4 8B", "ZZ" and "" all compile to the empty
pattern. -/
theorem c9_malformed_rejected_whole :
    (∀ s : List Char,
      (∃ t ∈ tokenize (trim s), validToken t = false) → parseAOB s = []) ∧
    parseAOB ['4', ' ', '8', 'B'] = [] ∧
    parseAOB ['Z', 'Z'] = [] ∧
    parseAOB [] = [] := by
  refine ⟨?_, by decide, by decide, by decide⟩
  intro s hbad
  obtain ⟨t, hmem, hinv⟩ := hbad
  exact parseAOB_empty_of_bad s ⟨t, hmem, parseToken_invalid t hinv⟩

/-- C9 (witness): the universally quantified part applied to the concrete
input "4 8B", whose first token has the wrong length. -/
theorem c9_malformed_rejected_whole_witness :
    parseAOB ['4', ' ', '8', 'B'] = [] :=
  c9_malformed_rejected_whole.1 ['4', ' ', '8', 'B'] (by decide)

/-- The region bytes of the scanner example in the claims:
`[0x90, 0x48, 0x8B, 0x05, 0x90, 0x48, 0x8B, 0x05]`. -/
def exampleRegion : List Nat := [0x90, 0x48, 0x8B, 0x05, 0x90, 0x48, 0x8B, 0x05]

/-- The example region laid out in memory at address 1000. -/
def exampleMem (a : Nat) : Nat := exampleRegion.getD (a - 1000) 0

example : parseAOB ['4', '8', ' ', '8', 'B', ' ', '?', '?', ' ', '0', '5'] =
    [0x48, 0x8B, 0xCC, 0x05] := by decide

example : FindPattern 1000 8
    (parseAOB ['4', '8', ' ', '8', 'B', ' ', '?', '?', ' ', '0', '5'])
    exampleMem = none := by decide

example : FindPattern 1000 8
    (parseAOB ['?', '?', ' ', '4', '8', ' ', '8', 'B', ' ', '0', '5'])
    exampleMem = some 1000 := by decide

example : matchesAt exampleMem
    (parseAOB ['?', '?', ' ', '4', '8', ' ', '8', 'B', ' ', '0', '5'])
    1004 = true := by decide

/-- C4 (counterexample): on the region bytes
`[0x90, 0x48, 0x8B, 0x05, 0x90, 0x48, 0x8B, 0x05]` the pattern
`48 8B ?? 05` matches at no candidate offset — offset 1 fails because the
region byte at offset 4 is 0x90 while the pattern demands 0x05 there, and
offset 5 would read beyond the region — so `FindPattern` returns the
not-found sentinel, not offset 1 as the claim states. -/
theorem c4_leftmost_match_counterexample :
    FindPattern 1000 8
      (parseAOB ['4', '8', ' ', '8', 'B', ' ', '?', '?', ' ', '0', '5'])
      exampleMem = none ∧
    FindPattern 1000 8
      (parseAOB ['4', '8', ' ', '8', 'B', ' ', '?', '?', ' ', '0', '5'])
      exampleMem ≠ some 1001 := by decide

/-- C4 (amended): for every non-empty pattern, non-null region start and
region at least as large as the pattern, `FindPattern` returns
`start + o` exactly for the lowest candidate offset
`o ≤ region_size - pattern_length` at which every non-wildcard pattern
byte equals the region byte, and the not-found sentinel exactly when no
candidate offset matches.  On the example region, the stated pattern
`48 8B ?? 05` matches nowhere and yields the sentinel, while the pattern
`?? 48 8B 05`, which matches at offsets 0 and 4, returns the first
occurrence (offset 0), not the second (offset 4). -/
theorem c4_leftmost_match (start_address region_size : Nat)
    (pattern : List Nat) (mem : Nat → Nat) (h1 : pattern ≠ [])
    (h2 : start_address ≠ 0) (h3 : pattern.length ≤ region_size) :
    (∀ a, FindPattern start_address region_size pattern mem = some a ↔
      ∃ o, o ≤ region_size - pattern.length ∧ a = start_address + o ∧
        matchesAt mem pattern (start_address + o) = true ∧
        ∀ o', o' < o →
          matchesAt mem pattern (start_address + o') = false) ∧
    (FindPattern start_address region_size pattern mem = none ↔
      ∀ o, o ≤ region_size - pattern.length →
        matchesAt mem pattern (start_address + o) = false) ∧
    FindPattern 1000 8
      (parseAOB ['4', '8', ' ', '8', 'B', ' ', '?', '?', ' ', '0', '5'])
      exampleMem = none ∧
    FindPattern 1000 8
      (parseAOB ['?', '?', ' ', '4', '8', ' ', '8', 'B', ' ', '0', '5'])
      exampleMem = some 1000 ∧
    matchesAt exampleMem
      (parseAOB ['?', '?', ' ', '4', '8', ' ', '8', 'B', ' ', '0', '5'])
      1004 = true := by
  have hlen : ¬ pattern.length = 0 := by
    simpa using (List.length_pos.mpr h1).ne'
  have hsize : ¬ region_size < pattern.length := by omega
  refine ⟨?_, ?_, by decide, by decide, by decide⟩
  · intro a
    unfold FindPattern
    rw [if_neg hlen, if_neg h2, if_neg hsize,
      scanFrom_eq_some_iff mem pattern]
    constructor
    · rintro ⟨i, hik, rfl, hmi, hj⟩
      exact ⟨i, by omega, rfl, hmi, hj⟩
    · rintro ⟨o, ho, rfl, hmo, hj⟩
      exact ⟨o, by omega, rfl, hmo, hj⟩
  · unfold FindPattern
    rw [if_neg hlen, if_neg h2, if_neg hsize,
      scanFrom_eq_none_iff mem pattern]
    constructor
    · intro h o ho
      exact h o (by omega)
    · intro h i hi
      exact h i (by omega)

/-- C4 (witness): the leftmost-match characterisation applied to the
example region and the pattern `?? 48 8B 05`, recovering that the result
1000 names the match at offset 0 and that no smaller offset matches. -/
theorem c4_leftmost_match_witness :
    ∃ o, o ≤ 8 - (parseAOB
        ['?', '?', ' ', '4', '8', ' ', '8', 'B', ' ', '0', '5']).length ∧
      (1000 : Nat) = 1000 + o ∧
      matchesAt exampleMem
        (parseAOB ['?', '?', ' ', '4', '8', ' ', '8', 'B', ' ', '0', '5'])
        (1000 + o) = true ∧
      ∀ o', o' < o →
        matchesAt exampleMem
          (parseAOB ['?', '?', ' ', '4', '8', ' ', '8', 'B', ' ', '0', '5'])
          (1000 + o') = false :=
  ((c4_leftmost_match 1000 8
      (parseAOB ['?', '?', ' ', '4', '8', ' ', '8', 'B', ' ', '0', '5'])
      exampleMem (by decide) (by decide) (by decide)).1 1000).mp (by decide)

/-- C5: `FindPattern` returns the not-found sentinel on an empty pattern,
a null region start, or a region smaller than the pattern; and its result
depends only on the region bytes at offsets below `region_size`, i.e. no
byte at or past `start + region_size` is ever read. -/
theorem c5_scanner_bounds :
    (∀ start_address region_size mem,
      FindPattern start_address region_size [] mem = none) ∧
    (∀ region_size pattern mem,
      FindPattern 0 region_size pattern mem = none) ∧
    (∀ start_address region_size pattern mem,
      region_size < pattern.length →
      FindPattern start_address region_size pattern mem = none) ∧
    (∀ start_address region_size pattern mem mem',
      (∀ i, i < region_size →
        mem (start_address + i) = mem' (start_address + i)) →
      FindPattern start_address region_size pattern mem =
        FindPattern start_address region_size pattern mem') := by
  refine ⟨?_, ?_, ?_, ?_⟩
  · intro start_address region_size mem
    simp [FindPattern]
  · intro region_size pattern mem
    unfold FindPattern
    by_cases hp : pattern.length = 0
    · rw [if_pos hp]
    · rw [if_neg hp, if_pos rfl]
  · intro start_address region_size pattern mem hlt
    unfold FindPattern
    by_cases hp : pattern.length = 0
    · rw [if_pos hp]
    · rw [if_neg hp]
      by_cases hs : start_address = 0
      · rw [if_pos hs]
      · rw [if_neg hs, if_pos hlt]
  · intro start_address region_size pattern mem mem' hagree
    by_cases hp : pattern.length = 0
    · simp [FindPattern, hp]
    · by_cases hs : start_address = 0
      · simp [FindPattern, hp, hs]
      · by_cases hr : region_size < pattern.length
        · simp [FindPattern, hp, hs, hr]
        · simp only [FindPattern, hp, hs, hr, if_false]
          apply scanFrom_congr
          intro i hi j hj
          rw [Nat.add_assoc]
          apply hagree
          omega

/-- C5 (witness): two memories agreeing on the two in-region bytes but
differing beyond the region produce the same scan result, and a one-byte
region is too small for a two-byte pattern. -/
theorem c5_scanner_bounds_witness :
    FindPattern 1000 2 [0x48] (fun a => if a < 1002 then 0x48 else 7) =
      FindPattern 1000 2 [0x48] (fun a => if a < 1002 then 0x48 else 9) ∧
    FindPattern 1000 1 [0x48, 0x8B] (fun _ => 0) = none :=
  ⟨c5_scanner_bounds.2.2.2 1000 2 [0x48]
      (fun a => if a < 1002 then 0x48 else 7)
      (fun a => if a < 1002 then 0x48 else 9) (by decide),
    c5_scanner_bounds.2.2.1 1000 1 [0x48, 0x8B] (fun _ => 0) (by decide)⟩

theorem findCacheEntry_overflow (cache : List CachedMemoryRegionInfo)
    (expiry_ms now address size : Nat) (hsz : size ≠ 0)
    (hwrap : (address + size) % PTR_MOD < address) :
    findCacheEntry cache expiry_ms now address size = (cache, none) := by
  simp only [findCacheEntry]
  rw [if_pos ⟨hwrap, hsz⟩]

/-- C10: a readability or writability query of non-zero size whose
`address + size` wraps around the 64-bit address space answers `false`,
for every cache state and every `VirtualQuery` outcome — the wrap is
caught by the explicit comparison in `findCacheEntry` (forcing a cache
miss) and by the explicit comparison on the `VirtualQuery` path. -/
theorem c10_overflow_answers_false (cache : List CachedMemoryRegionInfo)
    (expiry_ms now : Nat) (vq : Option MEMORY_BASIC_INFORMATION)
    (address size : Nat) (hsz : size ≠ 0)
    (hwrap : (address + size) % PTR_MOD < address) :
    (isMemoryReadable cache expiry_ms now vq address size).1 = false ∧
    (isMemoryWritable cache expiry_ms now vq address size).1 = false := by
  by_cases haddr : address = 0
  · subst haddr
    omega
  have hor : ¬ (address = 0 ∨ size = 0) := by tauto
  have hlook : (if cache.isEmpty then (cache, none)
      else findCacheEntry cache expiry_ms now address size) =
      (cache, (none : Option Nat)) := by
    by_cases hc : cache.isEmpty
    · rw [if_pos hc]
    · rw [if_neg hc, findCacheEntry_overflow cache _ _ _ _ hsz hwrap]
  constructor
  · simp only [isMemoryReadable]
    rw [if_neg hor, hlook]
    cases vq with
    | none => rfl
    | some mbi =>
      show (if mbi.State ≠ MEM_COMMIT then (false, cache)
        else if ¬ protAllowsRead mbi.Protect then (false, cache)
        else _).1 = false
      by_cases hstate : mbi.State ≠ MEM_COMMIT
      · rw [if_pos hstate]
      · rw [if_neg hstate]
        by_cases hprot : ¬ protAllowsRead mbi.Protect = true
        · rw [if_pos hprot]
        · rw [if_neg hprot]
          show (if (address + size) % PTR_MOD < address ∧ size ≠ 0
            then (false, cache) else _).1 = false
          rw [if_pos ⟨hwrap, hsz⟩]
  · simp only [isMemoryWritable]
    rw [if_neg hor, hlook]
    cases vq with
    | none => rfl
    | some mbi =>
      show (if mbi.State ≠ MEM_COMMIT then (false, cache)
        else if ¬ protAllowsWrite mbi.Protect then (false, cache)
        else _).1 = false
      by_cases hstate : mbi.State ≠ MEM_COMMIT
      · rw [if_pos hstate]
      · rw [if_neg hstate]
        by_cases hprot : ¬ protAllowsWrite mbi.Protect = true
        · rw [if_pos hprot]
        · rw [if_neg hprot]
          show (if (address + size) % PTR_MOD < address ∧ size ≠ 0
            then (false, cache) else _).1 = false
          rw [if_pos ⟨hwrap, hsz⟩]

/-- C10 (witness): a concrete wrapping query — address `2^64 - 1`, size 2
— answers `false` on both paths even though the (cached and OS-reported)
region is committed, readable and writable and nominally contains huge
ranges. -/
theorem c10_overflow_answers_false_witness :
    (isMemoryReadable [⟨0, 2 ^ 64 - 1, 0x04, 10, true⟩] 5000 10
      (some ⟨0, 2 ^ 64 - 1, 0x1000, 0x04⟩) (2 ^ 64 - 1) 2).1 = false ∧
    (isMemoryWritable [⟨0, 2 ^ 64 - 1, 0x04, 10, true⟩] 5000 10
      (some ⟨0, 2 ^ 64 - 1, 0x1000, 0x04⟩) (2 ^ 64 - 1) 2).1 = false :=
  c10_overflow_answers_false [⟨0, 2 ^ 64 - 1, 0x04, 10, true⟩] 5000 10
    (some ⟨0, 2 ^ 64 - 1, 0x1000, 0x04⟩) (2 ^ 64 - 1) 2
    (by decide) (by norm_num [PTR_MOD])

/-- C8: `updateCacheWithNewRegion` on a non-empty cache overwrites
exactly one slot with the new descriptor: the first slot whose validity
flag is false when one exists, and otherwise — when every slot is valid —
a slot whose timestamp is least (the least-recently-refreshed entry). -/
theorem c8_update_prefers_invalid_slot
    (cache : List CachedMemoryRegionInfo) (now : Nat)
    (mbi : MEMORY_BASIC_INFORMATION) (h : cache ≠ []) :
    ∃ i, i < cache.length ∧
      updateCacheWithNewRegion cache now mbi =
        cache.set i (newCacheEntry mbi now) ∧
      ((∃ e ∈ cache, e.valid = false) →
        (cache.getD i emptyCacheEntry).valid = false ∧
        ∀ j, j < i → (cache.getD j emptyCacheEntry).valid = true) ∧
      ((∀ e ∈ cache, e.valid = true) →
        ∀ j, j < cache.length →
          (cache.getD i emptyCacheEntry).timestamp ≤
            (cache.getD j emptyCacheEntry).timestamp) := by
  unfold updateCacheWithNewRegion
  rw [if_neg (by simpa [List.isEmpty_iff] using h)]
  cases hfind : findIfIdx (fun e => !e.valid) cache with
  | some i =>
    obtain ⟨hlt, hp, hprev⟩ := findIfIdx_some _ cache i hfind
    refine ⟨i, hlt, rfl, ?_, ?_⟩
    · intro _
      refine ⟨by simpa using hp, ?_⟩
      intro j hj
      simpa using hprev j hj
    · intro hall
      have hmem : cache.getD i emptyCacheEntry ∈ cache := by
        rw [List.getD_eq_getElem _ _ hlt]
        exact List.getElem_mem _
      have := hall _ hmem
      rw [this] at hp
      simp at hp
  | none =>
    have hallv : ∀ e ∈ cache, e.valid = true := by
      intro e he
      by_contra hne
      have hp : (!e.valid) = true := by
        simp only [Bool.not_eq_true] at hne
        simp [hne]
      have := findIfIdx_isSome_of_mem (fun e => !e.valid) cache e he hp
      rw [hfind] at this
      simp at this
    refine ⟨minElementIdx cache, minElementIdx_lt cache h, rfl, ?_, ?_⟩
    · rintro ⟨e, he, hev⟩
      have := hallv e he
      rw [this] at hev
      simp at hev
    · intro _ j hj
      exact minElementIdx_min cache j hj

/-- C8 (witness): a two-slot cache whose second slot is invalid — the
update overwrites slot 1, leaving the valid slot 0 alone. -/
theorem c8_update_prefers_invalid_slot_witness :
    ∃ i, i < ([⟨4096, 4096, 0x04, 7, true⟩, ⟨0, 0, 0, 0, false⟩] :
        List CachedMemoryRegionInfo).length ∧
      updateCacheWithNewRegion
          [⟨4096, 4096, 0x04, 7, true⟩, ⟨0, 0, 0, 0, false⟩] 9
          ⟨8192, 4096, 0x02, 0x1000⟩ =
        ([⟨4096, 4096, 0x04, 7, true⟩, ⟨0, 0, 0, 0, false⟩] :
          List CachedMemoryRegionInfo).set i
          (newCacheEntry ⟨8192, 4096, 0x02, 0x1000⟩ 9) ∧
      ((∃ e ∈ ([⟨4096, 4096, 0x04, 7, true⟩, ⟨0, 0, 0, 0, false⟩] :
          List CachedMemoryRegionInfo), e.valid = false) →
        (([⟨4096, 4096, 0x04, 7, true⟩, ⟨0, 0, 0, 0, false⟩] :
          List CachedMemoryRegionInfo).getD i emptyCacheEntry).valid = false ∧
        ∀ j, j < i →
          (([⟨4096, 4096, 0x04, 7, true⟩, ⟨0, 0, 0, 0, false⟩] :
            List CachedMemoryRegionInfo).getD j emptyCacheEntry).valid =
            true) ∧
      ((∀ e ∈ ([⟨4096, 4096, 0x04, 7, true⟩, ⟨0, 0, 0, 0, false⟩] :
          List CachedMemoryRegionInfo), e.valid = true) →
        ∀ j, j < ([⟨4096, 4096, 0x04, 7, true⟩, ⟨0, 0, 0, 0, false⟩] :
            List CachedMemoryRegionInfo).length →
          (([⟨4096, 4096, 0x04, 7, true⟩, ⟨0, 0, 0, 0, false⟩] :
            List CachedMemoryRegionInfo).getD i emptyCacheEntry).timestamp ≤
          (([⟨4096, 4096, 0x04, 7, true⟩, ⟨0, 0, 0, 0, false⟩] :
            List CachedMemoryRegionInfo).getD j
              emptyCacheEntry).timestamp) :=
  c8_update_prefers_invalid_slot
    [⟨4096, 4096, 0x04, 7, true⟩, ⟨0, 0, 0, 0, false⟩] 9
    ⟨8192, 4096, 0x02, 0x1000⟩ (by decide)

theorem find_hook_idx_lt (hook_id : String) :
    ∀ (reg : List HookRecord) (i : Nat),
    find_hook_idx reg hook_id = some i → i < reg.length := by
  intro reg
  induction reg with
  | nil =>
    intro i h
    simp [find_hook_idx] at h
  | cons r rest ih =>
    intro i h
    simp only [find_hook_idx] at h
    by_cases hr : r.name = hook_id
    · rw [if_pos hr] at h
      have : i = 0 := by simpa using h.symm
      subst this
      simp
    · rw [if_neg hr] at h
      cases hrec : find_hook_idx rest hook_id with
      | none =>
        rw [hrec] at h
        simp at h
      | some i' =>
        rw [hrec] at h
        simp only [Option.map_some', Option.some.injEq] at h
        subst h
        have := ih i' hrec
        simp only [List.length_cons]
        omega

/-- C3: whenever `create_inline_hook` or `create_mid_hook` succeeds
(returns a non-empty name), the stored record's initial status is
`Active` exactly when the engine reports the newly created hook enabled,
and the auto-enable divergence warning is logged exactly when auto-enable
was requested but the engine reports the hook disabled — the status is
never derived from the requested config alone. -/
theorem c3_status_from_engine_report (reg : List HookRecord)
    (allocatorOk : Bool) (name : String)
    (target_address detour_function : Nat) (original_trampoline : Bool)
    (config : HookConfig) (engine : EngineCreateOutcome) :
    ((create_inline_hook reg allocatorOk name target_address
        detour_function original_trampoline config engine).ret ≠ "" →
      ∃ handle enabled r, engine = .ok handle enabled ∧
        (create_inline_hook reg allocatorOk name target_address
          detour_function original_trampoline config engine).registry =
          reg ++ [r] ∧
        (r.status = HookStatus.Active ↔ enabled = true) ∧
        (create_inline_hook reg allocatorOk name target_address
          detour_function original_trampoline config
          engine).warnedAutoEnable = (config.autoEnable && !enabled)) ∧
    ((create_mid_hook reg allocatorOk name target_address detour_function
        config engine).ret ≠ "" →
      ∃ handle enabled r, engine = .ok handle enabled ∧
        (create_mid_hook reg allocatorOk name target_address
          detour_function config engine).registry = reg ++ [r] ∧
        (r.status = HookStatus.Active ↔ enabled = true) ∧
        (create_mid_hook reg allocatorOk name target_address
          detour_function config engine).warnedAutoEnable =
          (config.autoEnable && !enabled)) := by
  constructor
  · unfold create_inline_hook
    cases allocatorOk with
    | false => intro hret; exact absurd rfl hret
    | true =>
      show ((if target_address = 0 then _ else _ : CreateResult).ret ≠ _ → _)
      by_cases ht : target_address = 0
      · rw [if_pos ht]; intro hret; exact absurd rfl hret
      · rw [if_neg ht]
        by_cases hd : detour_function = 0
        · rw [if_pos hd]; intro hret; exact absurd rfl hret
        · rw [if_neg hd]
          cases original_trampoline with
          | false => intro hret; exact absurd rfl hret
          | true =>
            show ((if hook_id_exists reg name = true then _ else _ :
              CreateResult).ret ≠ _ → _)
            by_cases hex : hook_id_exists reg name = true
            · rw [if_pos hex]; intro hret; exact absurd rfl hret
            · rw [if_neg hex]
              cases engine with
              | err => intro hret; exact absurd rfl hret
              | ok handle enabled =>
                intro _
                refine ⟨handle, enabled, _, rfl, rfl, ?_, rfl⟩
                cases enabled <;> simp
  · unfold create_mid_hook
    cases allocatorOk with
    | false => intro hret; exact absurd rfl hret
    | true =>
      show ((if target_address = 0 then _ else _ : CreateResult).ret ≠ _ → _)
      by_cases ht : target_address = 0
      · rw [if_pos ht]; intro hret; exact absurd rfl hret
      · rw [if_neg ht]
        by_cases hd : detour_function = 0
        · rw [if_pos hd]; intro hret; exact absurd rfl hret
        · rw [if_neg hd]
          by_cases hex : hook_id_exists reg name = true
          · rw [if_pos hex]; intro hret; exact absurd rfl hret
          · rw [if_neg hex]
            cases engine with
            | err => intro hret; exact absurd rfl hret
            | ok handle enabled =>
              intro _
              refine ⟨handle, enabled, _, rfl, rfl, ?_, rfl⟩
              cases enabled <;> simp

/-- C3 (witness): a successful inline creation where auto-enable was
requested but the engine reports the hook disabled — the record is
stored `Disabled` and the warning fires. -/
theorem c3_status_from_engine_report_witness :
    ∃ handle enabled r, (EngineCreateOutcome.ok 7 false) =
        EngineCreateOutcome.ok handle enabled ∧
      (create_inline_hook [] true ("hook_a") 4096 1 true ⟨true, 0⟩
        (EngineCreateOutcome.ok 7 false)).registry = [] ++ [r] ∧
      (r.status = HookStatus.Active ↔ enabled = true) ∧
      (create_inline_hook [] true ("hook_a") 4096 1 true ⟨true, 0⟩
        (EngineCreateOutcome.ok 7 false)).warnedAutoEnable =
        (Bool.true && !enabled) :=
  (c3_status_from_engine_report [] true ("hook_a") 4096 1 true ⟨true, 0⟩
    (EngineCreateOutcome.ok 7 false)).1 (by decide)

/-- C6: creating a hook (inline or mid) under a name that already exists
in the registry fails with the empty string, performs no engine call, and
leaves the registry — in particular the record already stored under that
name — completely unchanged. -/
theorem c6_name_uniqueness (reg : List HookRecord) (allocatorOk : Bool)
    (name : String) (target_address detour_function : Nat)
    (original_trampoline : Bool) (config : HookConfig)
    (engine : EngineCreateOutcome)
    (hex : hook_id_exists reg name = true) :
    create_inline_hook reg allocatorOk name target_address detour_function
        original_trampoline config engine = ⟨reg, "", 0, false⟩ ∧
    create_mid_hook reg allocatorOk name target_address detour_function
        config engine = ⟨reg, "", 0, false⟩ := by
  constructor
  · unfold create_inline_hook
    cases allocatorOk with
    | false => rfl
    | true =>
      show (if target_address = 0 then _ else _ : CreateResult) = _
      by_cases ht : target_address = 0
      · rw [if_pos ht]
      · rw [if_neg ht]
        by_cases hd : detour_function = 0
        · rw [if_pos hd]
        · rw [if_neg hd]
          cases original_trampoline with
          | false => rfl
          | true =>
            show (if hook_id_exists reg name = true then _ else _ :
              CreateResult) = _
            rw [if_pos hex]
  · unfold create_mid_hook
    cases allocatorOk with
    | false => rfl
    | true =>
      show (if target_address = 0 then _ else _ : CreateResult) = _
      by_cases ht : target_address = 0
      · rw [if_pos ht]
      · rw [if_neg ht]
        by_cases hd : detour_function = 0
        · rw [if_pos hd]
        · rw [if_neg hd]
          rw [if_pos hex]

/-- C6 (witness): a second creation under the existing name "hook_a"
fails, calls no engine function, and leaves the one-record registry
untouched. -/
theorem c6_name_uniqueness_witness :
    create_inline_hook
        [⟨"hook_a", HookType.Inline, 4096, HookStatus.Active, some 7⟩]
        true ("hook_a") 8192 1 true ⟨true, 0⟩
        (EngineCreateOutcome.ok 9 true) =
      ⟨[⟨"hook_a", HookType.Inline, 4096, HookStatus.Active, some 7⟩],
        "", 0, false⟩ ∧
    create_mid_hook
        [⟨"hook_a", HookType.Inline, 4096, HookStatus.Active, some 7⟩]
        true ("hook_a") 8192 1 ⟨true, 0⟩
        (EngineCreateOutcome.ok 9 true) =
      ⟨[⟨"hook_a", HookType.Inline, 4096, HookStatus.Active, some 7⟩],
        "", 0, false⟩ :=
  c6_name_uniqueness
    [⟨"hook_a", HookType.Inline, 4096, HookStatus.Active, some 7⟩]
    true ("hook_a") 8192 1 true ⟨true, 0⟩
    (EngineCreateOutcome.ok 9 true) (by decide)

/-- C7: enabling an already-`Active` hook and disabling an
already-`Disabled` hook are no-op successes that touch neither the stored
status nor the engine; and when the engine rejects an actual transition,
the operation fails and the stored status (indeed the whole registry) is
unchanged. -/
theorem c7_idempotent_enable_disable (reg : List HookRecord)
    (hook_id : String) (engineOk : Bool) (i : Nat)
    (hfind : find_hook_idx reg hook_id = some i) :
    ((reg.getD i ⟨"", HookType.Inline, 0, HookStatus.Removed, none⟩).status =
        HookStatus.Active →
      enable_hook reg hook_id engineOk = ⟨true, reg, 0⟩) ∧
    ((reg.getD i ⟨"", HookType.Inline, 0, HookStatus.Removed, none⟩).status =
        HookStatus.Disabled →
      disable_hook reg hook_id engineOk = ⟨true, reg, 0⟩) ∧
    ((reg.getD i ⟨"", HookType.Inline, 0, HookStatus.Removed, none⟩).status =
        HookStatus.Disabled →
      (reg.getD i ⟨"", HookType.Inline, 0, HookStatus.Removed,
        none⟩).engineHandle.isSome = true →
      engineOk = false →
      enable_hook reg hook_id engineOk = ⟨false, reg, 1⟩) ∧
    ((reg.getD i ⟨"", HookType.Inline, 0, HookStatus.Removed, none⟩).status =
        HookStatus.Active →
      (reg.getD i ⟨"", HookType.Inline, 0, HookStatus.Removed,
        none⟩).engineHandle.isSome = true →
      engineOk = false →
      disable_hook reg hook_id engineOk = ⟨false, reg, 1⟩) := by
  have hlt : i < reg.length := find_hook_idx_lt hook_id reg i hfind
  refine ⟨?_, ?_, ?_, ?_⟩
  · intro hA
    simp only [enable_hook, hfind]
    rw [if_neg (by rw [hA]; decide), if_pos hA]
  · intro hD
    simp only [disable_hook, hfind]
    rw [if_neg (by rw [hD]; decide), if_pos hD]
  · intro hD hsome hEO
    subst hEO
    obtain ⟨v, hv⟩ := Option.isSome_iff_exists.mp hsome
    have hHE : hookEnable
        (reg.getD i ⟨"", HookType.Inline, 0, HookStatus.Removed, none⟩)
        false =
        (false,
          reg.getD i ⟨"", HookType.Inline, 0, HookStatus.Removed, none⟩,
          1) := by
      simp only [hookEnable, hv]
      rw [if_neg (by rw [hD]; decide), if_neg (by rw [hD]; decide),
        if_neg (by decide)]
    simp only [enable_hook, hfind]
    rw [if_pos hD, hHE]
    show (⟨false,
      reg.set i
        (reg.getD i ⟨"", HookType.Inline, 0, HookStatus.Removed, none⟩),
      1⟩ : OpResult) = ⟨false, reg, 1⟩
    rw [set_getD_self reg i _ hlt]
  · intro hA hsome hEO
    subst hEO
    obtain ⟨v, hv⟩ := Option.isSome_iff_exists.mp hsome
    have hHD : hookDisable
        (reg.getD i ⟨"", HookType.Inline, 0, HookStatus.Removed, none⟩)
        false =
        (false,
          reg.getD i ⟨"", HookType.Inline, 0, HookStatus.Removed, none⟩,
          1) := by
      simp only [hookDisable, hv]
      rw [if_neg (by rw [hA]; decide), if_neg (by rw [hA]; decide),
        if_neg (by decide)]
    simp only [disable_hook, hfind]
    rw [if_pos hA, hHD]
    show (⟨false,
      reg.set i
        (reg.getD i ⟨"", HookType.Inline, 0, HookStatus.Removed, none⟩),
      1⟩ : OpResult) = ⟨false, reg, 1⟩
    rw [set_getD_self reg i _ hlt]

/-- C7 (witness): on a two-record registry, enabling the already-active
hook succeeds with zero engine calls, and disabling it against a
rejecting engine fails with one engine call and an unchanged registry. -/
theorem c7_idempotent_enable_disable_witness :
    enable_hook
        [⟨"hook_a", HookType.Inline, 4096, HookStatus.Active, some 7⟩,
         ⟨"hook_b", HookType.Mid, 8192, HookStatus.Disabled, some 8⟩]
        ("hook_a") false =
      ⟨true,
        [⟨"hook_a", HookType.Inline, 4096, HookStatus.Active, some 7⟩,
         ⟨"hook_b", HookType.Mid, 8192, HookStatus.Disabled, some 8⟩],
        0⟩ ∧
    disable_hook
        [⟨"hook_a", HookType.Inline, 4096, HookStatus.Active, some 7⟩,
         ⟨"hook_b", HookType.Mid, 8192, HookStatus.Disabled, some 8⟩]
        ("hook_a") false =
      ⟨false,
        [⟨"hook_a", HookType.Inline, 4096, HookStatus.Active, some 7⟩,
         ⟨"hook_b", HookType.Mid, 8192, HookStatus.Disabled, some 8⟩],
        1⟩ :=
  ⟨(c7_idempotent_enable_disable
      [⟨"hook_a", HookType.Inline, 4096, HookStatus.Active, some 7⟩,
       ⟨"hook_b", HookType.Mid, 8192, HookStatus.Disabled, some 8⟩]
      ("hook_a") false 0 (by decide)).1 (by decide),
    (c7_idempotent_enable_disable
      [⟨"hook_a", HookType.Inline, 4096, HookStatus.Active, some 7⟩,
       ⟨"hook_b", HookType.Mid, 8192, HookStatus.Disabled, some 8⟩]
      ("hook_a") false 0 (by decide)).2.2.2 (by decide) (by decide) rfl⟩

end DetourModKit
